import Mathlib

/-!
Verification of the Move parser diagnostic harness
(`comprehensive_move_test.py`), shallowly embedded in Lean 4.

Python strings are modelled as `List Char` (a Python `str` is a sequence
of Unicode code points), Python `bytes` as `List Nat` (each entry < 256),
and the Python dict used for the node census as an insertion-ordered
association list.  Syntax-tree nodes handed over by the external
tree-sitter parser are modelled by the inductive `SyntaxNode` carrying
exactly the fields the script reads: `type`, `text`, `start_point`,
`end_point` and the ordered `children`.
-/

namespace MoveHarness

/-- A 0-based (row, column) position, as exposed by tree-sitter's
`start_point` / `end_point`. -/
structure Point where
  row : Nat
  column : Nat
deriving DecidableEq

/-- A syntax-tree node as consumed by the script: a type tag, an optional
raw byte span (`text`), start and end positions, and ordered children. -/
inductive SyntaxNode : Type where
  | mk (ty : String) (text : Option (List Nat)) (start_point : Point)
       (end_point : Point) (children : List SyntaxNode) : SyntaxNode

/-- The node's type tag (`node.type`). -/
def SyntaxNode.type : SyntaxNode → String
  | .mk ty _ _ _ _ => ty

/-- The node's raw byte span (`node.text`), absent when the attribute is
missing. -/
def SyntaxNode.text : SyntaxNode → Option (List Nat)
  | .mk _ txt _ _ _ => txt

/-- The node's 0-based start position (`node.start_point`). -/
def SyntaxNode.start_point : SyntaxNode → Point
  | .mk _ _ sp _ _ => sp

/-- The node's 0-based end position (`node.end_point`). -/
def SyntaxNode.end_point : SyntaxNode → Point
  | .mk _ _ _ ep _ => ep

/-- The node's ordered children (`node.children`). -/
def SyntaxNode.children : SyntaxNode → List SyntaxNode
  | .mk _ _ _ _ ch => ch

/-- The node's child count (`node.child_count`). -/
def SyntaxNode.child_count (n : SyntaxNode) : Nat :=
  n.children.length

/-- Structural induction over a node and all members of its child list;
needed because `SyntaxNode` nests through `List`. -/
theorem SyntaxNode.ind (P : SyntaxNode → Prop)
    (step : ∀ ty txt sp ep ch,
      (∀ c ∈ ch, P c) → P (SyntaxNode.mk ty txt sp ep ch)) :
    ∀ n, P n
  | .mk ty txt sp ep ch =>
    step ty txt sp ep ch (fun c hc =>
      have : sizeOf c < sizeOf (SyntaxNode.mk ty txt sp ep ch) := by
        have h := List.sizeOf_lt_of_mem hc
        simp only [SyntaxNode.mk.sizeOf_spec]
        omega
      SyntaxNode.ind P step c)
termination_by n => sizeOf n

mutual

/-- The pre-order node sequence of a tree: the node itself, then the
pre-order sequences of its children, left to right.  This is the
traversal order the spec refers to. -/
def preorder : SyntaxNode → List SyntaxNode
  | .mk ty txt sp ep ch => SyntaxNode.mk ty txt sp ep ch :: preorderList ch

/-- Pre-order sequence of a forest, left to right. -/
def preorderList : List SyntaxNode → List SyntaxNode
  | [] => []
  | c :: rest => preorder c ++ preorderList rest

end

mutual

/-- `find_errors` from `test_move_file`: collects the node itself when its
type tag is `"ERROR"`, then recursively extends with the errors found in
each child, left to right. -/
def find_errors : SyntaxNode → List SyntaxNode
  | .mk ty txt sp ep ch =>
    (if ty == "ERROR" then [SyntaxNode.mk ty txt sp ep ch] else []) ++
      find_errorsList ch

/-- The `for child in node.children: errors.extend(find_errors(child))`
loop of `find_errors`. -/
def find_errorsList : List SyntaxNode → List SyntaxNode
  | [] => []
  | c :: rest => find_errors c ++ find_errorsList rest

end

mutual

/-- Modelled from the spec: the external tree-sitter parser's derived
`has_error` attribute on a node, true iff the node or any descendant is
an error-marker node (spec section 6: "a derived `hasError` boolean true
iff any node in the tree (including root) is an error-marker node").
The attribute itself lives in the external parser library, not in this
repository's sources. -/
def has_error : SyntaxNode → Bool
  | .mk ty _ _ _ ch => ty == "ERROR" || has_errorList ch

/-- `has_error` over a forest: true iff some tree in it contains an
error-marker node. -/
def has_errorList : List SyntaxNode → Bool
  | [] => false
  | c :: rest => has_error c || has_errorList rest

end

/-- The Python dict update `type_counts[k] = type_counts.get(k, 0) + 1`
on an insertion-ordered association list: an existing key keeps its
position and its count is incremented; a new key is appended at the end
with count 1. -/
def bump : List (String × Nat) → String → List (String × Nat)
  | [], k => [(k, 1)]
  | (k0, c) :: rest, k =>
    if k0 = k then (k0, c + 1) :: rest else (k0, c) :: bump rest k

mutual

/-- The inner `visit` of `count_node_types`: bump the count for the
node's type tag, then visit each child in order, threading the dict. -/
def visit : List (String × Nat) → SyntaxNode → List (String × Nat)
  | m, .mk ty _ _ _ ch => visitList (bump m ty) ch

/-- The `for child in n.children: visit(child)` loop of `visit`. -/
def visitList : List (String × Nat) → List SyntaxNode → List (String × Nat)
  | m, [] => m
  | m, c :: rest => visitList (visit m c) rest

end

/-- `count_node_types` from `test_move_file`: starts from an empty dict
and visits the whole tree. -/
def count_node_types (n : SyntaxNode) : List (String × Nat) :=
  visit [] n

/-- The ellipsis marker appended by the script's truncations. -/
def ellipsis : List Char := ['.', '.', '.']

/-- Python's `s.replace('\n', '\\n')`: every newline code point becomes
the two characters backslash and `n`. -/
def pyReplaceNl : List Char → List Char
  | [] => []
  | c :: rest =>
    if c = '\n' then '\\' :: 'n' :: pyReplaceNl rest
    else c :: pyReplaceNl rest

/-- The node-text preview of `analyze_node`:
`text_preview = node.text.decode('utf-8')[:50].replace('\n', '\\n')`
followed by `if len(text_preview) == 50: text_preview += "..."`,
applied to the already decoded text. -/
def text_preview (cs : List Char) : List Char :=
  let tp := pyReplaceNl (cs.take 50)
  if tp.length = 50 then tp ++ ellipsis else tp

/-- The code-preview line rendering of `test_move_file`:
`line_preview = line[:45]` and `if len(line) > 45: line_preview += "..."`. -/
def line_preview (line : List Char) : List Char :=
  let lp := line.take 45
  if 45 < line.length then lp ++ ellipsis else lp

/-- The error-content excerpt of `test_move_file`:
`error_text = error_node.text.decode('utf-8')[:30]` applied to the
already decoded text.  No marker is ever appended here. -/
def error_excerpt (cs : List Char) : List Char :=
  cs.take 30

/-- Strict UTF-8 decoding of a byte list to code points (models Python
`bytes.decode('utf-8')`, an external library routine): rejects truncated
sequences, stray or missing continuation bytes, overlong encodings,
surrogates and values above `0x10FFFF`.  `none` models Python raising
`UnicodeDecodeError`. -/
def utf8DecodeCps : List Nat → Option (List Nat)
  | [] => some []
  | b0 :: rest =>
    if b0 < 0x80 then
      (utf8DecodeCps rest).map (fun cps => b0 :: cps)
    else if b0 < 0xC2 then
      none
    else if b0 < 0xE0 then
      match rest with
      | b1 :: rest1 =>
        if 0x80 ≤ b1 ∧ b1 < 0xC0 then
          (utf8DecodeCps rest1).map
            (fun cps => ((b0 - 0xC0) * 0x40 + (b1 - 0x80)) :: cps)
        else none
      | [] => none
    else if b0 < 0xF0 then
      match rest with
      | b1 :: b2 :: rest2 =>
        if 0x80 ≤ b1 ∧ b1 < 0xC0 ∧ 0x80 ≤ b2 ∧ b2 < 0xC0 then
          let cp := (b0 - 0xE0) * 0x1000 + (b1 - 0x80) * 0x40 + (b2 - 0x80)
          if 0x800 ≤ cp ∧ (cp < 0xD800 ∨ 0xE000 ≤ cp) then
            (utf8DecodeCps rest2).map (fun cps => cp :: cps)
          else none
        else none
      | _ => none
    else if b0 < 0xF5 then
      match rest with
      | b1 :: b2 :: b3 :: rest3 =>
        if 0x80 ≤ b1 ∧ b1 < 0xC0 ∧ 0x80 ≤ b2 ∧ b2 < 0xC0 ∧
            0x80 ≤ b3 ∧ b3 < 0xC0 then
          let cp := (b0 - 0xF0) * 0x40000 + (b1 - 0x80) * 0x1000 +
            (b2 - 0x80) * 0x40 + (b3 - 0x80)
          if 0x10000 ≤ cp ∧ cp ≤ 0x10FFFF then
            (utf8DecodeCps rest3).map (fun cps => cp :: cps)
          else none
        else none
      | _ => none
    else
      none

/-- Decode a byte list to characters, mapping each scalar value to a
`Char` (all values produced by `utf8DecodeCps` are valid scalar
values, but `Char.ofNat`'s total fallback keeps this definition simple). -/
def utf8Decode (bs : List Nat) : Option (List Char) :=
  (utf8DecodeCps bs).map (fun cps => cps.map Char.ofNat)

/-- Decode a node's `text` attribute the way both `analyze_node` and the
error-excerpt code do: a missing or empty (falsy) `text` yields nothing
to show, a present non-empty `text` is decoded and may fault
(`Except.error ()` models the propagating `UnicodeDecodeError`). -/
def decode_text : Option (List Nat) → Except Unit (Option (List Char))
  | none => .ok none
  | some bs =>
    if bs = [] then .ok none
    else
      match utf8Decode bs with
      | some cs => .ok (some cs)
      | none => .error ()

mutual

/-- `analyze_node` from the script, returning the rendered lines instead
of printing them.  A line is the depth-proportional indent, the
connector glyph, the type tag and, when the node carries non-empty
text, the quoted `text_preview` of its decoded text.  Recursion into
children happens only while `depth < max_depth` and the node has
children.  A `UnicodeDecodeError` from decoding (`Except.error ()`)
aborts the walk; no placeholder is ever substituted. -/
def analyze_node : SyntaxNode → Nat → Nat → Except Unit (List (List Char))
  | .mk ty txt _sp _ep ch, depth, maxDepth =>
    let base : List Char :=
      List.replicate (2 * depth) ' ' ++ ('├' :: '─' :: ' ' :: ty.toList)
    let lineE : Except Unit (List Char) :=
      match decode_text txt with
      | .error e => .error e
      | .ok none => .ok base
      | .ok (some cs) =>
        .ok (base ++
          (' ' :: '→' :: ' ' :: '\x27' :: (text_preview cs ++ ['\x27'])))
    match lineE with
    | .error e => .error e
    | .ok line =>
      if depth < maxDepth ∧ 0 < ch.length then
        match analyze_children ch depth maxDepth with
        | .error e => .error e
        | .ok rest => .ok (line :: rest)
      else .ok [line]

/-- The `for child in node.children: analyze_node(child, depth+1, ...)`
loop of `analyze_node`. -/
def analyze_children : List SyntaxNode → Nat → Nat → Except Unit (List (List Char))
  | [], _, _ => .ok []
  | c :: cs, depth, maxDepth =>
    match analyze_node c (depth + 1) maxDepth with
    | .error e => .error e
    | .ok ls1 =>
      match analyze_children cs depth maxDepth with
      | .error e => .error e
      | .ok ls2 => .ok (ls1 ++ ls2)

end

/-- One reported error location: 1-based line and column (the script
prints `start_point.row + 1` and `start_point.column + 1`) and, when the
error node carries non-empty text, a 30-character excerpt of it. -/
structure ErrorLoc where
  line : Nat
  column : Nat
  excerpt : Option (List Char)
deriving DecidableEq

/-- The `for i, error_node in enumerate(error_nodes[:3], 1)` loop body:
build the 1-based location and the optional excerpt for each shown
error node; a decode fault propagates. -/
def locateList : List SyntaxNode → Except Unit (List ErrorLoc)
  | [] => .ok []
  | e :: rest =>
    match decode_text e.text with
    | .error f => .error f
    | .ok exc =>
      match locateList rest with
      | .error f => .error f
      | .ok locs =>
        .ok (⟨e.start_point.row + 1, e.start_point.column + 1,
          exc.map error_excerpt⟩ :: locs)

/-- The error-reporting block of `test_move_file`: the total number of
error nodes found, and the locations/excerpts of at most the first 3 of
them in traversal order. -/
def error_report (root : SyntaxNode) : Except Unit (Nat × List ErrorLoc) :=
  let error_nodes := find_errors root
  match locateList (error_nodes.take 3) with
  | .error f => .error f
  | .ok locs => .ok (error_nodes.length, locs)

/-- The ways one probe of `test_move_file` can unfold, as seen from the
probe's `try` block: the file read faults, the parse call faults, or the
parser returns a tree. -/
inductive ProbeEvent where
  | readFault
  | parseFault
  | parsed (root : SyntaxNode)

/-- `test_move_file`'s returned verdict: `False` when any exception is
caught (read fault, parse fault, or a decode fault while rendering or
excerpting), otherwise `not tree.root_node.has_error`. -/
def test_move_file : ProbeEvent → Bool
  | .readFault => false
  | .parseFault => false
  | .parsed root =>
    if has_error root then
      match error_report root with
      | .error _ => false
      | .ok _ => !(has_error root)
    else
      match analyze_node root 0 2 with
      | .error _ => false
      | .ok _ =>
        let _ := count_node_types root
        !(has_error root)

/-- Python dict assignment `test_results[filename] = success`: an
existing key keeps its position and its value is overwritten; a new key
is appended at the end. -/
def dictInsert (m : List (List Char × Bool)) (k : List Char) (v : Bool) :
    List (List Char × Bool) :=
  match m with
  | [] => [(k, v)]
  | (k0, v0) :: rest =>
    if k0 = k then (k0, v) :: rest else (k0, v0) :: dictInsert rest k v

/-- The `for file_path in sorted(move_files)` loop of `main`: probe each
discovered file in lexicographic order and record its verdict in the
`test_results` dict.  Filenames are the variable part of the glob
results; the fixed directory prefix `move_test_files/` is shared by all
of them, so path order and filename order coincide. -/
def run_probes (probe : List Char → Bool) (files : List (List Char)) :
    List (List Char × Bool) :=
  (files.insertionSort (· ≤ ·)).foldl (fun m f => dictInsert m f (probe f)) []

/-- The aggregate statistics and the ordered per-file results that
`main` prints in its summary section. -/
structure SuiteSummary where
  total : Nat
  passed : Nat
  failed : Nat
  ratePct : ℚ
  detail : List (List Char × Bool)
deriving DecidableEq

/-- How a run of `main` ends after parser construction: aborted because
the test directory is missing, aborted because no matching files were
found, or completed with a summary. -/
inductive RunOutcome where
  | noDir
  | noFiles
  | completed (s : SuiteSummary)
deriving DecidableEq

/-- `main` from the script, after parser construction: the directory
check and empty-glob check abort the run before any file is probed;
otherwise every discovered file is probed in sorted order, the summary
statistics are computed (`(passed_files/total_files)*100` as the
success rate) and the detailed results are listed in
`sorted(test_results.items())` order (dict keys are unique, so Python's
tuple order reduces to filename order). -/
def main_model (dirExists : Bool) (files : List (List Char))
    (probe : List Char → Bool) : RunOutcome :=
  if !dirExists then .noDir
  else if files = [] then .noFiles
  else
    let results := run_probes probe files
    let total := results.length
    let passed := (results.filter (fun r => r.2)).length
    .completed
      { total := total
        passed := passed
        failed := total - passed
        ratePct := ((passed : ℚ) / (total : ℚ)) * 100
        detail := results.insertionSort (fun a b => a.1 ≤ b.1) }

@[simp]
theorem type_mk (ty txt sp ep ch) : (SyntaxNode.mk ty txt sp ep ch).type = ty :=
  rfl

@[simp]
theorem text_mk (ty txt sp ep ch) : (SyntaxNode.mk ty txt sp ep ch).text = txt :=
  rfl

@[simp]
theorem start_point_mk (ty txt sp ep ch) :
    (SyntaxNode.mk ty txt sp ep ch).start_point = sp :=
  rfl

@[simp]
theorem children_mk (ty txt sp ep ch) :
    (SyntaxNode.mk ty txt sp ep ch).children = ch :=
  rfl

/-- List-level step for `find_errors_eq_filter`: a forest's collected
errors are the error-tagged members of its pre-order sequence, provided
each tree in it already satisfies the correspondence. -/
theorem find_errorsList_eq_of (l : List SyntaxNode)
    (h : ∀ c ∈ l,
      find_errors c = (preorder c).filter (fun m => m.type == "ERROR")) :
    find_errorsList l = (preorderList l).filter (fun m => m.type == "ERROR") := by
  induction l with
  | nil => rfl
  | cons c rest ih =>
    rw [find_errorsList, preorderList, List.filter_append,
      h c (List.mem_cons_self c rest),
      ih (fun x hx => h x (List.mem_cons_of_mem c hx))]

/-- `find_errors` collects exactly the `"ERROR"`-tagged members of the
pre-order node sequence, in pre-order. -/
theorem find_errors_eq_filter (n : SyntaxNode) :
    find_errors n = (preorder n).filter (fun m => m.type == "ERROR") := by
  induction n using SyntaxNode.ind with
  | step ty txt sp ep ch ih =>
    rw [find_errors, preorder, List.filter_cons, find_errorsList_eq_of ch ih]
    by_cases hty : (ty == "ERROR") = true
    · simp [hty]
    · simp [Bool.not_eq_true] at hty
      simp [hty]

/-- List-level step for `has_error_eq_nonempty`. -/
theorem has_errorList_eq_of (l : List SyntaxNode)
    (h : ∀ c ∈ l, has_error c = !(find_errors c).isEmpty) :
    has_errorList l = !(find_errorsList l).isEmpty := by
  induction l with
  | nil => rfl
  | cons c rest ih =>
    rw [has_errorList, find_errorsList, h c (List.mem_cons_self c rest),
      ih (fun x hx => h x (List.mem_cons_of_mem c hx))]
    cases find_errors c <;> simp

/-- The spec-modelled `has_error` flag agrees with non-emptiness of
`find_errors`. -/
theorem has_error_eq_nonempty (n : SyntaxNode) :
    has_error n = !(find_errors n).isEmpty := by
  induction n using SyntaxNode.ind with
  | step ty txt sp ep ch ih =>
    rw [has_error, find_errors, has_errorList_eq_of ch ih]
    by_cases hty : (ty == "ERROR") = true
    · simp [hty]
    · simp [Bool.not_eq_true] at hty
      simp [hty]

/-- C1: for every syntax tree, `find_errors` returns exactly the nodes
whose type tag equals `"ERROR"`, in pre-order (each node before its
children, children left to right); in particular it returns `[]` when no
node carries the tag, and the root's own tag only contributes the root
itself, never cutting off the descent. -/
theorem find_errors_exactly_error_nodes_in_preorder (n : SyntaxNode) :
    find_errors n = (preorder n).filter (fun m => m.type == "ERROR") :=
  find_errors_eq_filter n

/-- C2: the parse result's derived `has_error` flag (modelled from the
spec's parser contract) is true exactly when `find_errors` on the root
returns a non-empty sequence. -/
theorem has_error_iff_find_errors_nonempty (n : SyntaxNode) :
    has_error n = !(find_errors n).isEmpty :=
  has_error_eq_nonempty n

/-- `bump` adds exactly one to the total of the stored counts. -/
theorem bump_sum (m : List (String × Nat)) (k : String) :
    ((bump m k).map Prod.snd).sum = ((m.map Prod.snd).sum) + 1 := by
  induction m with
  | nil => rfl
  | cons p rest ih =>
    obtain ⟨k0, c⟩ := p
    rw [bump]
    by_cases hk : k0 = k
    · simp [hk]
      omega
    · simp [hk, ih]
      omega

/-- List-level step for `visit_sum`: visiting a forest adds its pre-order
node count to the stored total. -/
theorem visitList_sum_of (l : List SyntaxNode)
    (h : ∀ c ∈ l, ∀ m, ((visit m c).map Prod.snd).sum =
      ((m.map Prod.snd).sum) + (preorder c).length) :
    ∀ m, ((visitList m l).map Prod.snd).sum =
      ((m.map Prod.snd).sum) + (preorderList l).length := by
  induction l with
  | nil => intro m; rfl
  | cons c rest ih =>
    intro m
    rw [visitList, preorderList, ih (fun x hx => h x (List.mem_cons_of_mem c hx)),
      h c (List.mem_cons_self c rest)]
    simp [List.length_append]
    omega

/-- Visiting a tree adds its pre-order node count to the stored total. -/
theorem visit_sum (n : SyntaxNode) :
    ∀ m, ((visit m n).map Prod.snd).sum =
      ((m.map Prod.snd).sum) + (preorder n).length := by
  induction n using SyntaxNode.ind with
  | step ty txt sp ep ch ih =>
    intro m
    rw [visit, preorder, visitList_sum_of ch ih, bump_sum]
    simp
    omega

/-- C4: the census performed by `count_node_types` accounts for every
node of the tree exactly once — the counts sum to the length of the
pre-order node sequence (whose length is the number of nodes of the
finite tree); totality of the definition is the termination of the walk. -/
theorem census_total_eq_node_count (n : SyntaxNode) :
    ((count_node_types n).map Prod.snd).sum = (preorder n).length := by
  rw [count_node_types, visit_sum]
  simp

/-- First-occurrence key insertion: add `k` at the end unless present. -/
def insertNew {α : Type} [DecidableEq α] (acc : List α) (k : α) : List α :=
  if k ∈ acc then acc else acc ++ [k]

/-- First-occurrence deduplication, the key order of a Python dict
filled by repeated `get`/assignment. -/
def dedupFO {α : Type} [DecidableEq α] (l : List α) : List α :=
  l.foldl insertNew []

/-- `bump`'s effect on the key list is `insertNew`. -/
theorem bump_keys (m : List (String × Nat)) (k : String) :
    (bump m k).map Prod.fst = insertNew (m.map Prod.fst) k := by
  induction m with
  | nil => rfl
  | cons p rest ih =>
    obtain ⟨k0, c⟩ := p
    rw [bump, insertNew]
    by_cases hk : k0 = k
    · simp [hk]
    · have hne : ¬k = k0 := fun h => hk h.symm
      by_cases hmem : k ∈ rest.map Prod.fst
      · simp [hk, hmem, hne, ih, insertNew]
      · simp [hk, hmem, hne, ih, insertNew]

/-- List-level step for `visit_keys`. -/
theorem visitList_keys_of (l : List SyntaxNode)
    (h : ∀ c ∈ l, ∀ m, (visit m c).map Prod.fst =
      ((preorder c).map SyntaxNode.type).foldl insertNew (m.map Prod.fst)) :
    ∀ m, (visitList m l).map Prod.fst =
      ((preorderList l).map SyntaxNode.type).foldl insertNew (m.map Prod.fst) := by
  induction l with
  | nil => intro m; rfl
  | cons c rest ih =>
    intro m
    rw [visitList, preorderList, List.map_append, List.foldl_append,
      ← h c (List.mem_cons_self c rest),
      ih (fun x hx => h x (List.mem_cons_of_mem c hx))]

/-- The key list of a visit is the `insertNew` fold over the pre-order
type tags. -/
theorem visit_keys (n : SyntaxNode) :
    ∀ m, (visit m n).map Prod.fst =
      ((preorder n).map SyntaxNode.type).foldl insertNew (m.map Prod.fst) := by
  induction n using SyntaxNode.ind with
  | step ty txt sp ep ch ih =>
    intro m
    rw [visit, preorder, visitList_keys_of ch ih, List.map_cons,
      List.foldl_cons, bump_keys]
    rfl

/-- Membership in an `insertNew` fold: a key is a member iff it was
already accumulated or occurs in the folded list. -/
theorem mem_foldl_insertNew {α : Type} [DecidableEq α] (l : List α) :
    ∀ acc k, (k ∈ l.foldl insertNew acc ↔ k ∈ acc ∨ k ∈ l) := by
  induction l with
  | nil => intro acc k; simp
  | cons a rest ih =>
    intro acc k
    rw [List.foldl_cons, ih, insertNew]
    by_cases ha : a ∈ acc
    · by_cases hk : k = a
      · subst hk
        simp [ha]
      · simp [ha, hk]
    · by_cases hk : k = a
      · subst hk
        simp [ha]
      · simp [ha, hk]

/-- `bump` never stores a zero count. -/
theorem bump_pos (m : List (String × Nat)) (k : String)
    (h : ∀ p ∈ m, 1 ≤ p.2) : ∀ p ∈ bump m k, 1 ≤ p.2 := by
  induction m with
  | nil =>
    intro p hp
    rw [bump] at hp
    simp at hp
    simp [hp]
  | cons q rest ih =>
    obtain ⟨k0, c⟩ := q
    intro p hp
    rw [bump] at hp
    by_cases hk : k0 = k
    · simp [hk] at hp
      rcases hp with hp | hp
      · simp [hp]
      · exact h p (List.mem_cons_of_mem _ hp)
    · simp [hk] at hp
      rcases hp with hp | hp
      · exact h _ (by simp [hp])
      · exact ih (fun q hq => h q (List.mem_cons_of_mem _ hq)) p hp

/-- List-level step for `visit_pos`. -/
theorem visitList_pos_of (l : List SyntaxNode)
    (h : ∀ c ∈ l, ∀ m, (∀ p ∈ m, 1 ≤ p.2) → ∀ p ∈ visit m c, 1 ≤ p.2) :
    ∀ m, (∀ p ∈ m, 1 ≤ p.2) → ∀ p ∈ visitList m l, 1 ≤ p.2 := by
  induction l with
  | nil => intro m hm; exact hm
  | cons c rest ih =>
    intro m hm
    rw [visitList]
    exact ih (fun x hx => h x (List.mem_cons_of_mem c hx))
      (visit m c) (h c (List.mem_cons_self c rest) m hm)

/-- A visit never stores a zero count. -/
theorem visit_pos (n : SyntaxNode) :
    ∀ m, (∀ p ∈ m, 1 ≤ p.2) → ∀ p ∈ visit m n, 1 ≤ p.2 := by
  induction n using SyntaxNode.ind with
  | step ty txt sp ep ch ih =>
    intro m hm
    rw [visit]
    exact visitList_pos_of ch ih (bump m ty) (bump_pos m ty hm)

/-- C10: the census key list is exactly the first-occurrence
deduplication of the type tags met in pre-order — so a tag is a key iff
it occurs in the tree — and every stored count is at least 1. -/
theorem census_keys_exact_counts_positive (n : SyntaxNode) (k : String) :
    (count_node_types n).map Prod.fst =
      dedupFO ((preorder n).map SyntaxNode.type) ∧
    (k ∈ (count_node_types n).map Prod.fst ↔
      k ∈ (preorder n).map SyntaxNode.type) ∧
    (count_node_types n).all (fun p => decide (1 ≤ p.2)) = true := by
  have hkeys : (count_node_types n).map Prod.fst =
      dedupFO ((preorder n).map SyntaxNode.type) := by
    rw [count_node_types, visit_keys, dedupFO]
    rfl
  refine ⟨hkeys, ?_, ?_⟩
  · rw [hkeys, dedupFO, mem_foldl_insertNew]
    simp
  · rw [List.all_eq_true]
    intro p hp
    simpa using visit_pos n [] (by simp) p hp

/-- Replacing newlines grows the string by one character per newline. -/
theorem pyReplaceNl_length (l : List Char) :
    (pyReplaceNl l).length = l.length + l.count '\n' := by
  induction l with
  | nil => rfl
  | cons c rest ih =>
    rw [pyReplaceNl]
    by_cases hc : c = '\n'
    · simp [hc, ih, List.count_cons]
      omega
    · simp [hc, ih, List.count_cons]
      omega

/-- C3 counterexample: the 30-character error-content excerpt of a
31-character text is a bare truncation — no ellipsis marker is appended,
contrary to the claimed truncation law. -/
theorem error_excerpt_truncates_without_marker :
    error_excerpt (List.replicate 31 'a') ≠
      (List.replicate 31 'a').take 30 ++ ellipsis := by
  decide

/-- C3 amended: the code-preview line (cap 45) follows the claimed law;
the error excerpt (cap 30) truncates to at most 30 characters but never
appends a marker; the node-text preview first takes 50 decoded
characters and escapes newlines to two characters, then appends the
marker exactly when the characters taken plus the newlines among them
number 50 — so a newline-free text of exactly 50 characters (not longer
than the cap) also gets the marker, while a longer text with a newline
among its first 50 characters gets none. -/
theorem truncation_laws_amended (line s : List Char) :
    line_preview line =
      (if 45 < line.length then line.take 45 ++ ellipsis else line) ∧
    error_excerpt s = s.take 30 ∧
    (error_excerpt s).length ≤ 30 ∧
    text_preview s = pyReplaceNl (s.take 50) ++
      (if (s.take 50).length + (s.take 50).count '\n' = 50 then ellipsis
       else []) := by
  have hline : line_preview line =
      (if 45 < line.length then line.take 45 ++ ellipsis else line.take 45) :=
    rfl
  have htext : text_preview s =
      (if (pyReplaceNl (s.take 50)).length = 50 then
        pyReplaceNl (s.take 50) ++ ellipsis
      else pyReplaceNl (s.take 50)) :=
    rfl
  refine ⟨?_, rfl, ?_, ?_⟩
  · rw [hline]
    by_cases h : 45 < line.length
    · rw [if_pos h, if_pos h]
    · rw [if_neg h, if_neg h, List.take_of_length_le (Nat.le_of_not_lt h)]
  · rw [error_excerpt]
    simp [List.length_take]
  · rw [htext, pyReplaceNl_length]
    by_cases h : (s.take 50).length + (s.take 50).count '\n' = 50
    · rw [if_pos h, if_pos h]
    · rw [if_neg h, if_neg h, List.append_nil]

/-- Whether a fallible step succeeded. -/
def isOkB {α : Type} : Except Unit α → Bool
  | .ok _ => true
  | .error _ => false

/-- C5 counterexample: a parsed tree with no error-marker node whose
root text is the invalid UTF-8 byte `0xFF` gets a fail verdict, so the
verdict is not `not hasError` for every probed file — the decode fault
inside the AST render flips it. -/
theorem decode_fault_fails_errorfree_file :
    test_move_file (ProbeEvent.parsed
        (SyntaxNode.mk "source_file" (some [255]) ⟨0, 0⟩ ⟨0, 1⟩ [])) ≠
      !(has_error
        (SyntaxNode.mk "source_file" (some [255]) ⟨0, 0⟩ ⟨0, 1⟩ [])) := by
  decide

/-- C5 amended: read faults and parse faults are caught at the probe
boundary and yield a fail verdict (never propagating to the batch
loop); a tree with an error-marker node always yields fail; and for an
error-free tree the verdict is pass exactly when the AST render's
decoding raised no fault. -/
theorem probe_verdict_amended (root : SyntaxNode) :
    test_move_file ProbeEvent.readFault = false ∧
    test_move_file ProbeEvent.parseFault = false ∧
    (has_error root = true → test_move_file (ProbeEvent.parsed root) = false) ∧
    (has_error root = false →
      test_move_file (ProbeEvent.parsed root) = isOkB (analyze_node root 0 2)) := by
  refine ⟨rfl, rfl, ?_, ?_⟩
  · intro h
    rw [test_move_file, if_pos h]
    cases error_report root <;> simp [h]
  · intro h
    rw [test_move_file, if_neg (by simp [h])]
    cases ha : analyze_node root 0 2 <;> simp [isOkB, h]

/-- Closed instance of `probe_verdict_amended`: a childless error-free
node renders cleanly and passes; a root-level `ERROR` node fails. -/
theorem probe_verdict_amended_witness :
    test_move_file (ProbeEvent.parsed
        (SyntaxNode.mk "source_file" none ⟨0, 0⟩ ⟨0, 0⟩ [])) =
      isOkB (analyze_node
        (SyntaxNode.mk "source_file" none ⟨0, 0⟩ ⟨0, 0⟩ []) 0 2) ∧
    test_move_file (ProbeEvent.parsed
        (SyntaxNode.mk "ERROR" none ⟨0, 0⟩ ⟨0, 0⟩ [])) = false :=
  ⟨(probe_verdict_amended
      (SyntaxNode.mk "source_file" none ⟨0, 0⟩ ⟨0, 0⟩ [])).2.2.2 (by decide),
   (probe_verdict_amended
      (SyntaxNode.mk "ERROR" none ⟨0, 0⟩ ⟨0, 0⟩ [])).2.2.1 (by decide)⟩

/-- C9: a `UnicodeDecodeError` while decoding a node's non-empty text
aborts the render with no placeholder (the walk returns the fault, not
lines), and a render fault on an error-free tree is caught at the probe
boundary and turned into a fail verdict. -/
theorem decode_fault_aborts_walk_and_fails
    (n : SyntaxNode) (bs : List Nat) (d m : Nat) :
    (n.text = some bs → bs ≠ [] → utf8Decode bs = none →
      analyze_node n d m = Except.error ()) ∧
    (has_error n = false → analyze_node n 0 2 = Except.error () →
      test_move_file (ProbeEvent.parsed n) = false) := by
  constructor
  · cases n with
    | mk ty txt sp ep ch =>
      intro ht hne hdec
      simp only [text_mk] at ht
      subst ht
      rw [analyze_node]
      simp [decode_text, hne, hdec]
  · intro h0 herr
    rw [test_move_file, if_neg (by simp [h0]), herr]

/-- What a successful `locateList` run returns: one entry per input
node, carrying the node's 0-based start row and column, each plus 1. -/
theorem locateList_spec (l : List SyntaxNode) :
    ∀ locs, locateList l = Except.ok locs →
      locs.map (fun e => (e.line, e.column)) =
        l.map (fun e => (e.start_point.row + 1, e.start_point.column + 1)) ∧
      locs.length = l.length := by
  induction l with
  | nil =>
    intro locs h
    rw [locateList] at h
    cases h
    exact ⟨rfl, rfl⟩
  | cons e rest ih =>
    intro locs h
    rw [locateList] at h
    cases hd : decode_text e.text with
    | error f =>
      rw [hd] at h
      cases h
    | ok exc =>
      rw [hd] at h
      cases hr : locateList rest with
      | error f =>
        rw [hr] at h
        cases h
      | ok locs0 =>
        rw [hr] at h
        cases h
        obtain ⟨ih1, ih2⟩ := ih locs0 hr
        exact ⟨by simp [ih1], by simp [ih2]⟩

/-- C6: when the probe's error report is produced, it carries the total
number of error nodes (all of them counted), and the shown locations are
those of the first `min 3 total` error nodes in traversal order, each a
1-based line/column obtained by adding 1 to the node's 0-based start row
and column. -/
theorem error_report_first_three_one_based (root : SyntaxNode) (n : Nat)
    (locs : List ErrorLoc) (h : error_report root = Except.ok (n, locs)) :
    n = ((preorder root).filter (fun m => m.type == "ERROR")).length ∧
    locs.length = min 3 n ∧
    locs.map (fun e => (e.line, e.column)) =
      (((preorder root).filter (fun m => m.type == "ERROR")).take 3).map
        (fun e => (e.start_point.row + 1, e.start_point.column + 1)) := by
  rw [error_report] at h
  cases hl : locateList ((find_errors root).take 3) with
  | error f =>
    rw [hl] at h
    cases h
  | ok locs0 =>
    rw [hl] at h
    cases h
    obtain ⟨h1, h2⟩ := locateList_spec _ _ hl
    refine ⟨by rw [find_errors_eq_filter], ?_, ?_⟩
    · rw [h2, List.length_take]
    · rw [h1, find_errors_eq_filter]

/-- Closed instance of `error_report_first_three_one_based`: a tree with
one `ERROR` node at 0-based row 2, column 4 reports total 1 and the
1-based location (3, 5). -/
theorem error_report_first_three_one_based_witness :
    1 = ((preorder (SyntaxNode.mk "source_file" none ⟨0, 0⟩ ⟨3, 0⟩
          [SyntaxNode.mk "ERROR" none ⟨2, 4⟩ ⟨2, 9⟩ []])).filter
        (fun m => m.type == "ERROR")).length ∧
    ([(⟨3, 5, none⟩ : ErrorLoc)]).length = min 3 1 ∧
    ([(⟨3, 5, none⟩ : ErrorLoc)]).map (fun e => (e.line, e.column)) =
      (((preorder (SyntaxNode.mk "source_file" none ⟨0, 0⟩ ⟨3, 0⟩
            [SyntaxNode.mk "ERROR" none ⟨2, 4⟩ ⟨2, 9⟩ []])).filter
          (fun m => m.type == "ERROR")).take 3).map
        (fun e => (e.start_point.row + 1, e.start_point.column + 1)) :=
  error_report_first_three_one_based
    (SyntaxNode.mk "source_file" none ⟨0, 0⟩ ⟨3, 0⟩
      [SyntaxNode.mk "ERROR" none ⟨2, 4⟩ ⟨2, 9⟩ []])
    1 [⟨3, 5, none⟩] rfl

/-- Closed instance of `decode_fault_aborts_walk_and_fails` at the
byte `0xFF`: the walk aborts and the error-free file fails. -/
theorem decode_fault_aborts_walk_and_fails_witness :
    analyze_node (SyntaxNode.mk "source_file" (some [255]) ⟨0, 0⟩ ⟨0, 1⟩ [])
        0 2 = Except.error () ∧
    test_move_file (ProbeEvent.parsed
      (SyntaxNode.mk "source_file" (some [255]) ⟨0, 0⟩ ⟨0, 1⟩ [])) = false :=
  ⟨(decode_fault_aborts_walk_and_fails
      (SyntaxNode.mk "source_file" (some [255]) ⟨0, 0⟩ ⟨0, 1⟩ []) [255] 0 2).1
      rfl (by decide) rfl,
   (decode_fault_aborts_walk_and_fails
      (SyntaxNode.mk "source_file" (some [255]) ⟨0, 0⟩ ⟨0, 1⟩ []) [255] 0 2).2
      (by decide)
      ((decode_fault_aborts_walk_and_fails
        (SyntaxNode.mk "source_file" (some [255]) ⟨0, 0⟩ ⟨0, 1⟩ []) [255] 0 2).1
        rfl (by decide) rfl)⟩

/-- A dict assignment never produces an empty dict. -/
theorem dictInsert_ne_nil (m : List (List Char × Bool)) (k : List Char)
    (v : Bool) : dictInsert m k v ≠ [] := by
  cases m with
  | nil => simp [dictInsert]
  | cons p rest =>
    obtain ⟨k0, v0⟩ := p
    rw [dictInsert]
    by_cases hk : k0 = k <;> simp [hk]

/-- Folding dict assignments over any file list preserves non-emptiness
of the dict. -/
theorem foldl_dictInsert_ne_nil (probe : List Char → Bool) :
    ∀ (l : List (List Char)) (m : List (List Char × Bool)), m ≠ [] →
      l.foldl (fun m0 f => dictInsert m0 f (probe f)) m ≠ [] := by
  intro l
  induction l with
  | nil => intro m hm; exact hm
  | cons f rest ih =>
    intro m hm
    rw [List.foldl_cons]
    exact ih _ (dictInsert_ne_nil m f (probe f))

/-- Probing a non-empty batch of files yields a non-empty results dict. -/
theorem run_probes_ne_nil (probe : List Char → Bool)
    (files : List (List Char)) (h : files ≠ []) :
    run_probes probe files ≠ [] := by
  rw [run_probes]
  cases hs : files.insertionSort (· ≤ ·) with
  | nil =>
    exfalso
    have hp := List.perm_insertionSort (α := List Char) (· ≤ ·) files
    rw [hs] at hp
    exact h hp.symm.eq_nil
  | cons f rest =>
    rw [List.foldl_cons]
    exact foldl_dictInsert_ne_nil probe rest _ (dictInsert_ne_nil [] f (probe f))

/-- A dict assignment changes the key list by `insertNew`. -/
theorem dictInsert_keys (m : List (List Char × Bool)) (k : List Char)
    (v : Bool) :
    (dictInsert m k v).map Prod.fst = insertNew (m.map Prod.fst) k := by
  induction m with
  | nil => rfl
  | cons p rest ih =>
    obtain ⟨k0, v0⟩ := p
    rw [dictInsert, insertNew]
    by_cases hk : k0 = k
    · simp [hk]
    · have hne : ¬k = k0 := fun h => hk h.symm
      by_cases hmem : k ∈ rest.map Prod.fst
      · simp [hk, hmem, hne, ih, insertNew]
      · simp [hk, hmem, hne, ih, insertNew]

/-- Invariant of the probe loop: if the pending file list is sorted, the
accumulated dict keys are sorted and all bounded by the pending files,
then the final dict keys are sorted. -/
theorem foldl_dictInsert_keys_sorted (probe : List Char → Bool) :
    ∀ (l : List (List Char)) (m : List (List Char × Bool)),
      List.Sorted (· ≤ ·) l →
      List.Sorted (· ≤ ·) (m.map Prod.fst) →
      (∀ k ∈ m.map Prod.fst, ∀ f ∈ l, k ≤ f) →
      List.Sorted (· ≤ ·)
        ((l.foldl (fun m0 f => dictInsert m0 f (probe f)) m).map Prod.fst) := by
  intro l
  induction l with
  | nil => intro m _ hm _; exact hm
  | cons f rest ih =>
    intro m hl hm hb
    rw [List.sorted_cons] at hl
    rw [List.foldl_cons]
    refine ih (dictInsert m f (probe f)) hl.2 ?_ ?_
    · rw [dictInsert_keys, insertNew]
      by_cases hmem : f ∈ m.map Prod.fst
      · rw [if_pos hmem]
        exact hm
      · rw [if_neg hmem]
        refine List.pairwise_append.mpr ⟨hm, List.sorted_singleton f, ?_⟩
        intro a ha b hb0
        rw [List.mem_singleton] at hb0
        rw [hb0]
        exact hb a ha f (List.mem_cons_self f rest)
    · rw [dictInsert_keys, insertNew]
      intro k hk g hg
      by_cases hmem : f ∈ m.map Prod.fst
      · rw [if_pos hmem] at hk
        exact hb k hk g (List.mem_cons_of_mem f hg)
      · rw [if_neg hmem, List.mem_append, List.mem_singleton] at hk
        rcases hk with hk | hk
        · exact hb k hk g (List.mem_cons_of_mem f hg)
        · subst hk
          exact hl.1 g hg

/-- The results dict of `run_probes` has a sorted key list. -/
theorem run_probes_keys_sorted (probe : List Char → Bool)
    (files : List (List Char)) :
    List.Sorted (· ≤ ·) ((run_probes probe files).map Prod.fst) := by
  rw [run_probes]
  refine foldl_dictInsert_keys_sorted probe _ []
    (List.sorted_insertionSort (· ≤ ·) files) (by simp) (by simp)

/-- C7: a missing directory or an empty glob aborts the run before any
file is probed and no summary is produced; whenever a summary is
produced its total is at least 1, so the success-rate division
`(passed/total)*100` is only ever performed with a positive total. -/
theorem suite_aborts_before_divide (dirExists : Bool)
    (files : List (List Char)) (probe : List Char → Bool) (s : SuiteSummary) :
    (dirExists = false → main_model dirExists files probe = RunOutcome.noDir) ∧
    (files = [] → dirExists = true →
      main_model dirExists files probe = RunOutcome.noFiles) ∧
    (main_model dirExists files probe = RunOutcome.completed s →
      1 ≤ s.total ∧
      s.ratePct = ((s.passed : ℚ) / (s.total : ℚ)) * 100) := by
  refine ⟨?_, ?_, ?_⟩
  · intro h
    subst h
    rfl
  · intro hf hd
    subst hf
    subst hd
    rfl
  · intro h
    rw [main_model] at h
    cases dirExists with
    | false => cases h
    | true =>
      by_cases hf : files = []
      · rw [if_neg (by simp), if_pos hf] at h
        cases h
      · rw [if_neg (by simp), if_neg hf] at h
        cases h
        refine ⟨?_, rfl⟩
        have hne := run_probes_ne_nil probe files hf
        simpa [Nat.one_le_iff_ne_zero, List.length_eq_zero] using hne

/-- Closed instance of `suite_aborts_before_divide`: single-file batch,
all three run shapes. -/
theorem suite_aborts_before_divide_witness :
    main_model false [['a']] (fun _ => true) = RunOutcome.noDir ∧
    main_model true [] (fun _ => true) = RunOutcome.noFiles ∧
    (1 ≤ (1 : Nat) ∧
      ((1 : Nat) : ℚ) / ((1 : Nat) : ℚ) * 100 =
        (((1 : Nat) : ℚ) / ((1 : Nat) : ℚ)) * 100) :=
  ⟨(suite_aborts_before_divide false [['a']] (fun _ => true)
      ⟨1, 1, 0, ((1 : Nat) : ℚ) / ((1 : Nat) : ℚ) * 100,
        [(['a'], true)]⟩).1 rfl,
   (suite_aborts_before_divide true [] (fun _ => true)
      ⟨1, 1, 0, ((1 : Nat) : ℚ) / ((1 : Nat) : ℚ) * 100,
        [(['a'], true)]⟩).2.1 rfl rfl,
   (suite_aborts_before_divide true [['a']] (fun _ => true)
      ⟨1, 1, 0, ((1 : Nat) : ℚ) / ((1 : Nat) : ℚ) * 100,
        [(['a'], true)]⟩).2.2 rfl⟩

/-- C8: the suite outcome is invariant under reordering of the
discovered file list (discovery order is filesystem-dependent; the
script sorts before probing), so two runs over an unchanged directory
produce identical summaries and identical ordered per-file results; and
a produced summary lists its per-file results exactly as the probe pass
recorded them, in lexicographically sorted filename order. -/
theorem suite_deterministic_and_sorted (dirExists : Bool)
    (files1 files2 : List (List Char)) (probe : List Char → Bool)
    (s : SuiteSummary) :
    (files1.Perm files2 →
      main_model dirExists files1 probe = main_model dirExists files2 probe) ∧
    (main_model dirExists files1 probe = RunOutcome.completed s →
      s.detail = run_probes probe files1 ∧
      List.Sorted (· ≤ ·) (s.detail.map Prod.fst)) := by
  constructor
  · intro hperm
    have hsort : files1.insertionSort (· ≤ ·) = files2.insertionSort (· ≤ ·) :=
      List.eq_of_perm_of_sorted
        ((List.perm_insertionSort _ files1).trans
          (hperm.trans (List.perm_insertionSort _ files2).symm))
        (List.sorted_insertionSort _ files1)
        (List.sorted_insertionSort _ files2)
    have hrp : run_probes probe files1 = run_probes probe files2 := by
      rw [run_probes, run_probes, hsort]
    rw [main_model, main_model]
    cases dirExists with
    | false => rfl
    | true =>
      by_cases h1 : files1 = []
      · have h2 : files2 = [] := by
          rw [h1] at hperm
          exact hperm.symm.eq_nil
        rw [if_pos h1, if_pos h2]
      · have h2 : files2 ≠ [] := fun h => by
          rw [h] at hperm
          exact h1 hperm.eq_nil
        rw [if_neg h1, if_neg h2, hrp]
  · intro h
    rw [main_model] at h
    cases dirExists with
    | false => cases h
    | true =>
      by_cases hf : files1 = []
      · rw [if_neg (by simp), if_pos hf] at h
        cases h
      · rw [if_neg (by simp), if_neg hf] at h
        cases h
        have hkeys := run_probes_keys_sorted probe files1
        have hpair : List.Sorted (fun a b : List Char × Bool => a.1 ≤ b.1)
            (run_probes probe files1) := List.pairwise_map.mp hkeys
        have hdet : (run_probes probe files1).insertionSort
            (fun a b => a.1 ≤ b.1) = run_probes probe files1 :=
          hpair.insertionSort_eq
        exact ⟨hdet, by rw [hdet]; exact hkeys⟩

/-- Closed instance of `suite_deterministic_and_sorted`: the two
discovery orders of a two-file batch give the same outcome, and the
summary's detail is the sorted probe record. -/
theorem suite_deterministic_and_sorted_witness :
    main_model true [['b'], ['a']] (fun _ => true) =
      main_model true [['a'], ['b']] (fun _ => true) ∧
    ((⟨2, 2, 0, (((2 : Nat) : ℚ) / ((2 : Nat) : ℚ)) * 100,
        [(['a'], true), (['b'], true)]⟩ : SuiteSummary).detail =
      run_probes (fun _ => true) [['b'], ['a']] ∧
     List.Sorted (· ≤ ·)
       ((⟨2, 2, 0, (((2 : Nat) : ℚ) / ((2 : Nat) : ℚ)) * 100,
          [(['a'], true), (['b'], true)]⟩ : SuiteSummary).detail.map
         Prod.fst)) :=
  ⟨(suite_deterministic_and_sorted true [['b'], ['a']] [['a'], ['b']]
      (fun _ => true)
      ⟨2, 2, 0, (((2 : Nat) : ℚ) / ((2 : Nat) : ℚ)) * 100,
        [(['a'], true), (['b'], true)]⟩).1 (by decide),
   (suite_deterministic_and_sorted true [['b'], ['a']] [['a'], ['b']]
      (fun _ => true)
      ⟨2, 2, 0, (((2 : Nat) : ℚ) / ((2 : Nat) : ℚ)) * 100,
        [(['a'], true), (['b'], true)]⟩).2 rfl⟩

end MoveHarness
